import Mathlib

/-!
Verification of the shrinky-rs image optimizer (src/lib.rs, src/imagedata.rs,
src/main.rs) against its natural-language specification.

Strings are modelled as lists of characters (`Str`).  Rust's
`str::to_lowercase` / `to_ascii_lowercase` are modelled as a character-wise
ASCII lowercase map (the inputs the program compares against are all ASCII).
Machine integers (`u32`, `u64`, `usize`) are modelled as `Nat`, with explicit
bounds where the claims depend on them.  Calls into the two external codec
libraries (the `image` crate and `libheif`) are modelled as oracle function
fields on the `Image` structure; a Rust panic (out-of-bounds slice index) is
modelled by `Option.none`.
-/

/-- Rust strings are modelled as lists of characters. -/
abbrev Str := List Char

/-- Character-wise ASCII lowercase, modelling `str::to_lowercase` and
`str::to_ascii_lowercase` on the ASCII inputs this program deals with. -/
def lowerChar (c : Char) : Char :=
  if 65 ≤ c.toNat ∧ c.toNat ≤ 90 then Char.ofNat (c.toNat + 32) else c

/-- The error enum from src/lib.rs:131-139.  `ImageLoadingError`'s
`image::ImageError` payload is modelled by its message string. -/
inductive Error where
  | InvalidOptions (msg : Str)
  | UnsupportedFormat (msg : Str)
  | InvalidGeometry (msg : Str)
  | ImageLoadingError (msg : Str)
  | FileSystem (msg : Str)
  | ImageEncodingError (msg : Str)
deriving DecidableEq

/-- The format enum from src/lib.rs:28-36, in declaration order. -/
inductive ImageFormat where
  | Jpg
  | Png
  | Webp
  | Avif
  | Heic
  | Heif
deriving DecidableEq

/-- ImageFormat::extension (src/lib.rs:45-54). -/
def ImageFormat.extension : ImageFormat → Str
  | .Jpg => "jpg".data
  | .Png => "png".data
  | .Webp => "webp".data
  | .Avif => "avif".data
  | .Heic => "heic".data
  | .Heif => "heif".data

/-- ImageFormat::is_native_image_format (src/lib.rs:65-70). -/
def ImageFormat.is_native_image_format (f : ImageFormat) : Bool :=
  !(match f with
    | .Avif | .Heic | .Heif => true
    | _ => false)

/-- ImageFormat::all (src/lib.rs:72-76): the strum iterator yields the
variants in declaration order. -/
def ImageFormat.all : List ImageFormat :=
  [.Jpg, .Png, .Webp, .Avif, .Heic, .Heif]

/-- Splitting a list at every occurrence of a separator, modelling Rust's
`str::split(char)`.  Always returns at least one (possibly empty) segment. -/
def splitChar (c : Char) : Str → List Str
  | [] => [[]]
  | a :: rest =>
    if a = c then [] :: splitChar c rest
    else
      match splitChar c rest with
      | s :: ss => (a :: s) :: ss
      | [] => [[a]]

/-- The last segment after the last separator: `rsplit(c).next()`, which is
the whole string when the separator does not occur. -/
def lastSeg (c : Char) (s : Str) : Str :=
  (splitChar c s).getLastD []

/-- The name match from ImageFormat::from_str (src/lib.rs:85-93), applied to
an already-lowercased candidate `t`; `orig` is the string placed in the
`UnsupportedFormat` payload (`s.to_string()` in the source). -/
def ImageFormat.matchName (t orig : Str) : Except Error ImageFormat :=
  if t = "jpg".data then .ok .Jpg
  else if t = "jpeg".data then .ok .Jpg
  else if t = "png".data then .ok .Png
  else if t = "webp".data then .ok .Webp
  else if t = "avif".data then .ok .Avif
  else if t = "heic".data then .ok .Heic
  else if t = "heif".data then .ok .Heif
  else .error (.UnsupportedFormat orig)

/-- ImageFormat::try_from_filename (src/lib.rs:56-63): lowercase the whole
filename, take the segment after the last '.', and parse it.  The recursive
call back into `from_str` is inlined: the extracted segment contains no '.'
and is already lowercase, so `from_str` on it is exactly the name match. -/
def ImageFormat.try_from_filename (filename : Str) : Except Error ImageFormat :=
  let ext := filename.map lowerChar
  let seg := lastSeg '.' ext
  ImageFormat.matchName seg seg

/-- ImageFormat::from_str (src/lib.rs:78-95). -/
def ImageFormat.from_str (s : Str) : Except Error ImageFormat :=
  if '.' ∈ s then ImageFormat.try_from_filename s
  else ImageFormat.matchName (s.map lowerChar) s

/-- The `From<OsString> for ImageFormat` conversion (src/lib.rs:97-102).
`to_string_lossy` is the identity on the valid unicode strings modelled
here. -/
def ImageFormat.from_os_string (s : Str) : ImageFormat :=
  match ImageFormat.from_str s with
  | .ok f => f
  | .error _ => .Jpg

/-- The subset of `image::ImageFormat` reachable through
`TryInto<image::ImageFormat>` (src/lib.rs:115-129). -/
inductive ImageCrateFormat where
  | Jpeg
  | Png
  | WebP
deriving DecidableEq

/-- The `TryInto<image::ImageFormat>` conversion (src/lib.rs:115-129). -/
def ImageFormat.tryIntoImageCrate : ImageFormat → Except Error ImageCrateFormat
  | .Jpg => .ok .Jpeg
  | .Png => .ok .Png
  | .Webp => .ok .WebP
  | .Avif | .Heic | .Heif =>
    .error (.UnsupportedFormat ("AVIF/HEIC/HEIF format not supported by image crate".data))

/-- Strip a single leading character, modelling `str::strip_prefix(char)`. -/
def stripLeadChar (c : Char) : Str → Option Str
  | [] => none
  | a :: rest => if a = c then some rest else none

/-- Strip a single trailing character, modelling `str::strip_suffix(char)`. -/
def stripTrailChar (c : Char) (s : Str) : Option Str :=
  match s.getLast? with
  | some d => if d = c then some s.dropLast else none
  | none => none

/-- Decimal digit character for a digit value. -/
def digitChar (d : Nat) : Char := Char.ofNat (48 + d)

/-- Decimal representation of a `u32` value, modelling the `Display`
implementation of `u32` (most significant digit first). -/
def natRepr (n : Nat) : Str :=
  if n = 0 then ['0'] else (Nat.digits 10 n).reverse.map digitChar

/-- Model of `str::parse::<u32>()`: an optional leading '+', then one or
more ASCII digits; values that do not fit in a `u32` are rejected (the
source's overflow error). -/
def parseU32 (s : Str) : Option Nat :=
  let t := if s.head? = some '+' then s.tail else s
  if t = [] then none
  else if t.all Char.isDigit then
    let v := t.foldl (fun a c => 10 * a + (c.toNat - 48)) 0
    if v < 4294967296 then some v else none
  else none

/-- The geometry value type (src/imagedata.rs:12-16).  The `u32` components
are modelled as `Nat`. -/
structure Geometry where
  width : Option Nat
  height : Option Nat
deriving DecidableEq

/-- Geometry::empty (src/imagedata.rs:19-24). -/
def Geometry.empty : Geometry := ⟨none, none⟩

/-- Geometry::is_empty (src/imagedata.rs:26-28). -/
def Geometry.is_empty (g : Geometry) : Bool :=
  g.width.isNone && g.height.isNone

/-- Geometry::new (src/imagedata.rs:30-35). -/
def Geometry.new (width height : Nat) : Geometry := ⟨some width, some height⟩

/-- The `Display` implementation for Geometry (src/imagedata.rs:38-47). -/
def Geometry.display (g : Geometry) : Str :=
  match g.width, g.height with
  | some w, some h => natRepr w ++ 'x' :: natRepr h
  | some w, none => natRepr w ++ ['x']
  | none, some h => 'x' :: natRepr h
  | none, none => "empty".data

/-- The `FromStr` implementation for Geometry (src/imagedata.rs:49-93). -/
def Geometry.from_str (s0 : Str) : Except Error Geometry :=
  let s := s0.map lowerChar
  match stripLeadChar 'x' s with
  | some height_string =>
    match parseU32 height_string with
    | some h => .ok ⟨none, some h⟩
    | none => .error (.InvalidGeometry s)
  | none =>
    match stripTrailChar 'x' s with
    | some width_string =>
      match parseU32 width_string with
      | some w => .ok ⟨some w, none⟩
      | none => .error (.InvalidGeometry s)
    | none =>
      if 'x' ∈ s then
        let parts := splitChar 'x' s
        if parts.length ≠ 2 then
          .error (.InvalidGeometry ("Too many x characters".data))
        else
          match parseU32 (parts.getD 0 []) with
          | none => .error (.InvalidGeometry ("Invalid width from ".data ++ s))
          | some w =>
            match parseU32 (parts.getD 1 []) with
            | none => .error (.InvalidGeometry ("Invalid height from ".data ++ s))
            | some h => .ok ⟨some w, some h⟩
      else .error (.InvalidGeometry s)

/-- The pixel storage of a decoded `image::DynamicImage`, as observed through
`as_rgba8` / `as_rgb8` (src/imagedata.rs:268,291): 8-bit RGBA, 8-bit RGB, or
any other representation.  Channel bytes are modelled as `Nat`. -/
inductive PixelBuf where
  | rgba8 (pixels : List (Nat × Nat × Nat × Nat))
  | rgb8 (pixels : List (Nat × Nat × Nat))
  | other
deriving DecidableEq

/-- Number of pixels held by a pixel buffer. -/
def PixelBuf.count : PixelBuf → Nat
  | .rgba8 px => px.length
  | .rgb8 px => px.length
  | .other => 0

/-- Model of `image::DynamicImage`: dimensions plus pixel storage.  The
codec behaviour of the external crate lives in the oracle fields of
`Image`, not here. -/
structure DynamicImage where
  width : Nat
  height : Nat
  pixels : PixelBuf
deriving DecidableEq

/-- The three 8-bit colour planes of a libheif image
(src/imagedata.rs:256-266). -/
structure Planes where
  r : List Nat
  g : List Nat
  b : List Nat
deriving DecidableEq

/-- A bounds-checked list update, modelling an indexed slice write
`data[i] = v`: `none` is the out-of-bounds panic. -/
def setChecked (l : List Nat) (i v : Nat) : Option (List Nat) :=
  if i < l.length then some (l.set i v) else none

/-- The inner loop of Image::output_heif (src/imagedata.rs:274-289 and
297-312): walk the channel bytes of one pixel with their channel index,
writing channel 0 to the r plane, 1 to g, 2 to b, and ignoring any further
channel (the alpha byte). -/
def writeChannels (pixel_index : Nat) (chans : List Nat) (ci : Nat) (ps : Planes) :
    Option Planes :=
  match chans with
  | [] => some ps
  | c :: rest =>
    let step : Option Planes :=
      match ci with
      | 0 => (setChecked ps.r pixel_index c).map (fun r' => { ps with r := r' })
      | 1 => (setChecked ps.g pixel_index c).map (fun g' => { ps with g := g' })
      | 2 => (setChecked ps.b pixel_index c).map (fun b' => { ps with b := b' })
      | _ => some ps
    step.bind (writeChannels pixel_index rest (ci + 1))

/-- The outer loop of Image::output_heif (src/imagedata.rs:270-290 and
293-313): walk the pixels with their pixel index, writing each one's
channels into the planes. -/
def assemblePlanes (pixels : List (List Nat)) (idx : Nat) (ps : Planes) :
    Option Planes :=
  match pixels with
  | [] => some ps
  | p :: rest => (writeChannels idx p 0 ps).bind (assemblePlanes rest (idx + 1))

/-- The channel bytes of one RGBA pixel in memory order. -/
def pixelChans4 (p : Nat × Nat × Nat × Nat) : List Nat :=
  [p.1, p.2.1, p.2.2.1, p.2.2.2]

/-- The channel bytes of one RGB pixel in memory order. -/
def pixelChans3 (p : Nat × Nat × Nat) : List Nat :=
  [p.1, p.2.1, p.2.2]

/-- Dropping the alpha byte of an RGBA pixel. -/
def dropAlpha (p : Nat × Nat × Nat × Nat) : Nat × Nat × Nat :=
  (p.1, p.2.1, p.2.2.1)

/-- The freshly created planes of src/imagedata.rs:256-258: `create_plane`
allocates `height` rows of at least `width` bytes for an 8-bit channel; the
model uses exactly `width * height` bytes per plane (stride = width, the
minimum the library may choose). -/
def initPlanes (width height : Nat) : Planes :=
  ⟨List.replicate (width * height) 0,
   List.replicate (width * height) 0,
   List.replicate (width * height) 0⟩

/-- Model of `std::path::Path::extension` on the file-name strings used
here: the part of the final path segment after its last '.', or `none`
when there is no '.' or the file name starts with its only '.'. -/
def pathExt (p : Str) : Option Str :=
  let fileName := lastSeg '/' p
  match splitChar '.' fileName with
  | [] => none
  | [_] => none
  | first :: rest =>
    if first = [] ∧ rest.length = 1 then none
    else (first :: rest).getLastD []

/-- Case-insensitive ASCII comparison, modelling `eq_ignore_ascii_case`. -/
def eqIgnoreCase (a b : Str) : Bool :=
  a.map lowerChar = b.map lowerChar

/-- The image container value type (src/imagedata.rs:95-103).  The final
two fields are oracles standing for the two external codec libraries:
`nativeEncode` is `DynamicImage::write_to` of the `image` crate applied to
the stored image, and `heifEncode` is the libheif pipeline downstream of
plane assembly (encoder setup, `set_quality`, `encode_image`,
`write_to_bytes`), as a function of the three assembled planes. -/
structure Image where
  original_file_size : Nat
  input_filename : Str
  original_geometry : Geometry
  target_geometry : Option Geometry
  output_format : Option ImageFormat
  image : DynamicImage
  nativeEncode : DynamicImage → ImageCrateFormat → Except Str (List Nat)
  heifEncode : List Nat → List Nat → List Nat → Except Str (List Nat)

/-- Image::with_target_geometry (src/imagedata.rs:127-130). -/
def Image.with_target_geometry (img : Image) (g : Geometry) : Image :=
  { img with target_geometry := some g }

/-- Image::with_output_format (src/imagedata.rs:132-135). -/
def Image.with_output_format (img : Image) (f : ImageFormat) : Image :=
  { img with output_format := some f }

/-- Image::will_overwrite (src/imagedata.rs:137-165). -/
def Image.will_overwrite (img : Image) : Bool :=
  match img.output_format with
  | some format =>
    match format with
    | .Png =>
      match pathExt img.input_filename with
      | some ext => eqIgnoreCase ext ("png".data)
      | none => false
    | .Jpg =>
      match pathExt img.input_filename with
      | some ext => eqIgnoreCase ext ("jpg".data)
      | none => false
    | .Webp =>
      match pathExt img.input_filename with
      | some ext => eqIgnoreCase ext ("webp".data)
      | none => false
    | .Heif | .Heic =>
      match pathExt img.input_filename with
      | some ext => eqIgnoreCase ext ("heif".data) || eqIgnoreCase ext ("heic".data)
      | none => false
    | .Avif =>
      match pathExt img.input_filename with
      | some ext => eqIgnoreCase ext ("avif".data)
      | none => false
  | none => true

/-- Image::final_geometry (src/imagedata.rs:186-215).  The one-sided
branches compute the missing dimension through an `f32` ratio and truncate
to `u32`; the model uses the exact truncated quotient `⌊a * b / c⌋`, which
is what the float code computes up to rounding of the ratio. -/
def Image.final_geometry (img : Image) : Geometry :=
  match img.target_geometry with
  | some geom =>
    match geom.width, geom.height with
    | some _, some _ => geom
    | some w, none => Geometry.new w (img.image.height * w / img.image.width)
    | none, some h => Geometry.new (img.image.width * h / img.image.height) h
    | none, none => Geometry.new img.image.width img.image.height
  | none => Geometry.new img.image.width img.image.height

/-- Image::resize (src/imagedata.rs:217-235).  `resize_exact` of the image
crate is the external parameter `resizeExact`; note the method returns the
resized image and leaves `self.image` unchanged. -/
def Image.resize (img : Image) (resizeExact : DynamicImage → Nat → Nat → DynamicImage) :
    Except Error DynamicImage :=
  let fg := img.final_geometry
  if fg ≠ Geometry.new img.image.width img.image.height then
    .ok (resizeExact img.image (fg.width.getD 0) (fg.height.getD 0))
  else
    .ok img.image

/-- Image::output_heif (src/imagedata.rs:238-323).  Encoder and context
setup are modelled as succeeding (their failures are folded into the
`heifEncode` oracle); `none` is the out-of-bounds panic in the plane
assembly loops. -/
def Image.output_heif (img : Image) : Option (Except Error (List Nat)) :=
  match img.final_geometry.width, img.final_geometry.height with
  | none, _ =>
    some (.error (.ImageEncodingError
      ("Width must be specified for HEIF encoding".data)))
  | some _, none =>
    some (.error (.ImageEncodingError
      ("Height must be specified for HEIF encoding".data)))
  | some width, some height =>
    let ps0 := initPlanes width height
    match img.image.pixels with
    | .rgba8 px =>
      match assemblePlanes (px.map pixelChans4) 0 ps0 with
      | some ps =>
        some ((img.heifEncode ps.r ps.g ps.b).mapError Error.ImageEncodingError)
      | none => none
    | .rgb8 px =>
      match assemblePlanes (px.map pixelChans3) 0 ps0 with
      | some ps =>
        some ((img.heifEncode ps.r ps.g ps.b).mapError Error.ImageEncodingError)
      | none => none
    | .other =>
      some (.error (.ImageEncodingError
        ("Failed to get RGB8-ish data from image for HEIF encoding".data)))

/-- Image::output_as_format (src/imagedata.rs:325-341). -/
def Image.output_as_format (img : Image) (format : ImageFormat) :
    Option (Except Error (List Nat)) :=
  match format.tryIntoImageCrate with
  | .ok write_format =>
    some (match img.nativeEncode img.image write_format with
      | .ok buffer => .ok buffer
      | .error e => .error (.ImageEncodingError e))
  | .error _ =>
    if format.is_native_image_format then
      some (.error (.ImageEncodingError
        ("Failed to convert to native image format".data)))
    else
      img.output_heif

/-- Rust's `Iterator::min_by_key` (on equal keys the first element wins),
as used in src/imagedata.rs:375. -/
def minByKey {α : Type} (k : α → Nat) : List α → Option α
  | [] => none
  | x :: xs => some (xs.foldl (fun acc y => if k y < k acc then y else acc) x)

/-- The `rayon` collect step of Image::auto_format (src/imagedata.rs:356-362)
after the per-format map: `collect` on an indexed parallel iterator yields
the results in the iteration order, and a panic in any branch panics the
whole call, exactly as a sequential loop would. -/
def collectResults :
    List (ImageFormat × Option (Except Error (List Nat))) →
    Option (List (ImageFormat × Except Error (List Nat)))
  | [] => some []
  | (_, none) :: _ => none
  | (f, some r) :: rest => (collectResults rest).map (fun l => (f, r) :: l)

/-- The filter step of Image::auto_format (src/imagedata.rs:364-373):
keep the successful encodings. -/
def keepOk (results : List (ImageFormat × Except Error (List Nat))) :
    List (ImageFormat × List Nat) :=
  results.filterMap (fun p =>
    match p.2 with
    | .ok encoded_data => some (p.1, encoded_data)
    | .error _ => none)

/-- Image::auto_format (src/imagedata.rs:353-382). -/
def Image.auto_format (img : Image) :
    Option (Except Error (ImageFormat × List Nat)) :=
  match collectResults (ImageFormat.all.map (fun fmt => (fmt, img.output_as_format fmt))) with
  | none => none
  | some results =>
    match minByKey (fun r => r.2.length) (keepOk results) with
    | some (format, data) => some (.ok (format, data))
    | none =>
      some (.error (.ImageEncodingError
        ("Failed to determine optimal image format".data)))

/-- Spec-side sequential encoding for the refinement claim: encode each
format of `ImageFormat.all` in enumeration order; a panic anywhere aborts
the run. -/
def Image.seqEncode (img : Image) :
    List ImageFormat → Option (List (ImageFormat × Except Error (List Nat)))
  | [] => some []
  | f :: rest =>
    match img.output_as_format f with
    | none => none
    | some r => (img.seqEncode rest).map (fun l => (f, r) :: l)

/-- Spec-side minimum key value of a list (the minimal byte length). -/
def minKeyVal {α : Type} (k : α → Nat) : List α → Option Nat
  | [] => none
  | x :: xs => some (xs.foldl (fun m y => Nat.min m (k y)) (k x))

/-- Spec-side selection: the first element whose key attains the minimum. -/
def firstMinBy {α : Type} (k : α → Nat) (l : List α) : Option α :=
  match minKeyVal k l with
  | none => none
  | some m => l.find? (fun a => k a == m)

/-- Spec-side sequential auto_format, written from the claim's words:
encode each format of `ImageFormat::all()` in enumeration order, discard
the failed encodings, and return the first pair of minimal byte length
(with the same fallback error when nothing succeeded). -/
def Image.auto_format_spec (img : Image) :
    Option (Except Error (ImageFormat × List Nat)) :=
  match img.seqEncode ImageFormat.all with
  | none => none
  | some results =>
    match firstMinBy (fun r => r.2.length) (keepOk results) with
    | some (format, data) => some (.ok (format, data))
    | none =>
      some (.error (.ImageEncodingError
        ("Failed to determine optimal image format".data)))

/-- The geometry block of main (src/main.rs:115-140): parse the geometry
argument, and when it is non-empty set it as the target geometry and call
resize, only logging the returned resized image.  `none` models
`process::exit(1)`. -/
def applyGeometry (resizeExact : DynamicImage → Nat → Nat → DynamicImage)
    (geometryArg : Option Str) (img : Image) : Option Image :=
  match geometryArg with
  | none => some img
  | some gs =>
    match Geometry.from_str gs with
    | .error _ => none
    | .ok target_geometry =>
      if target_geometry.is_empty then some img
      else
        let img := img.with_target_geometry target_geometry
        match img.resize resizeExact with
        | .ok _new_image => some img
        | .error _ => none

/-- The auto-mode encoding step of main (src/main.rs:142-157): the bytes
written to disk are exactly auto_format's choice; `some (.error ())` models
`process::exit(1)` after a reported error and `none` a panic. -/
def mainAutoBytes (img : Image) : Option (Except Unit (List Nat)) :=
  match img.auto_format with
  | none => none
  | some (.ok (_format, data)) => some (.ok data)
  | some (.error _) => some (.error ())

/-- The answer check of prompt_delete_source (src/main.rs:74-78):
trim the response, lowercase it, and accept exactly "y" and "yes". -/
def answeredYes (response : Str) : Bool :=
  let r := ((response.dropWhile Char.isWhitespace).reverse.dropWhile
      Char.isWhitespace).reverse.map lowerChar
  r = "y".data || r = "yes".data

/-- The result of prompt_delete_source (src/main.rs:30-79) as a function of
whether the terminal io succeeded and of the line the user typed. -/
def promptResult (ioOk : Bool) (response : Str) : Except Unit Bool :=
  if ioOk then .ok (answeredYes response) else .error ()

/-- The delete branch of main (src/main.rs:206-281): whether
`fs::remove_file` is reached, as a function of the --delete flag, the image
state after the output was written, the written byte count, and the
prompt's outcome. -/
def deleteDecision (cliDelete : Bool) (img : Image) (bytesLen : Nat)
    (ioOk : Bool) (response : Str) : Bool :=
  if cliDelete then
    if !img.will_overwrite then
      match ImageFormat.try_from_filename img.input_filename with
      | .ok original_format =>
        match img.output_format with
        | some output_format =>
          let format_changed := original_format ≠ output_format
          let size_reduced := bytesLen < img.original_file_size
          if format_changed ∨ size_reduced then
            match promptResult ioOk response with
            | .ok should_delete => should_delete
            | .error _ => false
          else false
        | none => false
      | .error _ => false
    else false
  else false

instance {ε α : Type} [DecidableEq ε] [DecidableEq α] : DecidableEq (Except ε α) :=
  fun x y =>
    match x, y with
    | .ok a, .ok b => decidable_of_iff (a = b) (by simp)
    | .error a, .error b => decidable_of_iff (a = b) (by simp)
    | .ok _, .error _ => .isFalse (by simp)
    | .error _, .ok _ => .isFalse (by simp)

/-- The supported lowercase names of each format, from the claim list:
jpg and jpeg for Jpg, and each remaining format's own name. -/
def namesOf : ImageFormat → List Str
  | .Jpg => ["jpg".data, "jpeg".data]
  | .Png => ["png".data]
  | .Webp => ["webp".data]
  | .Avif => ["avif".data]
  | .Heic => ["heic".data]
  | .Heif => ["heif".data]

/-- A concrete 2x2 RGB image used to instantiate the hypotheses of the
claims' theorems: a 41-byte png on disk, encoding oracles that return a
3-byte native buffer and a libheif buffer one byte longer than the r
plane. -/
def sampleImage : Image where
  original_file_size := 41
  input_filename := "a.png".data
  original_geometry := Geometry.new 2 2
  target_geometry := none
  output_format := none
  image := { width := 2, height := 2, pixels := .rgb8 [(1, 2, 3), (4, 5, 6), (7, 8, 9), (10, 11, 12)] }
  nativeEncode := fun _ _ => .ok [9, 9, 9]
  heifEncode := fun r _ _ => .ok (0 :: r)

/-- A concrete image whose smallest successful encoding (3 bytes) is larger
than the 1-byte original file. -/
def growImage : Image :=
  { sampleImage with
      original_file_size := 1
      image := { width := 2, height := 2, pixels := .other } }

/-- A concrete resize oracle for the main-flow theorems: it returns an
image with the requested dimensions. -/
def sampleResize (d : DynamicImage) (w h : Nat) : DynamicImage :=
  { d with width := w, height := h }

theorem matchName_ok_iff (t o : Str) (f : ImageFormat) :
    ImageFormat.matchName t o = .ok f ↔ t ∈ namesOf f := by
  unfold ImageFormat.matchName
  split_ifs with h1 h2 h3 h4 h5 h6 h7
  · subst h1; cases f <;> decide
  · subst h2; cases f <;> decide
  · subst h3; cases f <;> decide
  · subst h4; cases f <;> decide
  · subst h5; cases f <;> decide
  · subst h6; cases f <;> decide
  · subst h7; cases f <;> decide
  · cases f <;> simp_all [namesOf]

theorem matchName_err (t o : Str) (h : ∀ f, t ∉ namesOf f) :
    ImageFormat.matchName t o = .error (.UnsupportedFormat o) := by
  unfold ImageFormat.matchName
  split_ifs with h1 h2 h3 h4 h5 h6 h7
  · exact absurd h1 (by have := h .Jpg; simp [namesOf] at this; exact this.1)
  · exact absurd h2 (by have := h .Jpg; simp [namesOf] at this; exact this.2)
  · exact absurd h3 (by have := h .Png; simpa [namesOf] using this)
  · exact absurd h4 (by have := h .Webp; simpa [namesOf] using this)
  · exact absurd h5 (by have := h .Avif; simpa [namesOf] using this)
  · exact absurd h6 (by have := h .Heic; simpa [namesOf] using this)
  · exact absurd h7 (by have := h .Heif; simpa [namesOf] using this)
  · rfl

/-- C8: ImageFormat::from_str is fallible and returns Ok exactly for the
case-insensitive names jpg, jpeg, png, webp, avif, heic and heif (jpg and
jpeg map to Jpg); for an input containing a '.', the segment after the
last '.' is parsed as the name instead; every other string yields
Err(Error::UnsupportedFormat). -/
theorem c8_from_str_names (s : Str) (f : ImageFormat) :
    (ImageFormat.from_str s = .ok f ↔
      (if '.' ∈ s then lastSeg '.' (s.map lowerChar) else s.map lowerChar) ∈ namesOf f) ∧
    ((∀ g : ImageFormat,
        (if '.' ∈ s then lastSeg '.' (s.map lowerChar) else s.map lowerChar) ∉ namesOf g) →
      ∃ m, ImageFormat.from_str s = .error (.UnsupportedFormat m)) := by
  unfold ImageFormat.from_str ImageFormat.try_from_filename
  by_cases hd : '.' ∈ s
  · simp only [hd, if_true]
    exact ⟨matchName_ok_iff _ _ f, fun hg => ⟨_, matchName_err _ _ hg⟩⟩
  · simp only [hd, if_false]
    exact ⟨matchName_ok_iff _ _ f, fun hg => ⟨_, matchName_err _ _ hg⟩⟩

theorem c8_witness :
    ImageFormat.from_str ("photo.JPEG".data) = .ok ImageFormat.Jpg ∧
    (∃ m, ImageFormat.from_str ("cheese".data) = .error (.UnsupportedFormat m)) :=
  ⟨(c8_from_str_names ("photo.JPEG".data) ImageFormat.Jpg).1.mpr (by decide),
   (c8_from_str_names ("cheese".data) ImageFormat.Jpg).2
     (by intro g; cases g <;> decide)⟩

/-- C10: the `From<OsString>` conversion never fails; any string that
from_str rejects silently becomes ImageFormat::Jpg, and any accepted
string maps to its parsed format. -/
theorem c10_from_os_string_total (s : Str) :
    (∀ e, ImageFormat.from_str s = .error e → ImageFormat.from_os_string s = .Jpg) ∧
    (∀ f, ImageFormat.from_str s = .ok f → ImageFormat.from_os_string s = f) := by
  unfold ImageFormat.from_os_string
  constructor
  · intro e he; rw [he]
  · intro f hf; rw [hf]

theorem c10_witness :
    ImageFormat.from_str ("bogus".data) = .error (.UnsupportedFormat ("bogus".data)) ∧
    ImageFormat.from_os_string ("bogus".data) = .Jpg :=
  ⟨by decide,
   (c10_from_os_string_total ("bogus".data)).1 (.UnsupportedFormat ("bogus".data)) (by decide)⟩

/-- C7: the original input file is never deleted unless the --delete flag
was passed, the output did not overwrite the input, the conversion was
beneficial (format changed or byte count shrank), and the user answered
yes to the prompt. -/
theorem c7_delete_only_if (cliDelete : Bool) (img : Image) (bytesLen : Nat)
    (ioOk : Bool) (response : Str)
    (h : deleteDecision cliDelete img bytesLen ioOk response = true) :
    cliDelete = true ∧
    img.will_overwrite = false ∧
    (∃ original_format output_format,
      ImageFormat.try_from_filename img.input_filename = .ok original_format ∧
      img.output_format = some output_format ∧
      (original_format ≠ output_format ∨ bytesLen < img.original_file_size)) ∧
    ioOk = true ∧ answeredYes response = true := by
  unfold deleteDecision promptResult at h
  split at h
  case isFalse => exact absurd h (by simp)
  case isTrue hps =>
  split at h
  case isFalse => exact absurd h (by simp)
  case isTrue hov =>
  refine ⟨hps, by simpa using hov, ?_⟩
  split at h
  case h_2 => exact absurd h (by simp)
  case h_1 original_format hof =>
  split at h
  case h_2 => exact absurd h (by simp)
  case h_1 output_format hout =>
  split at h
  case h_2 a heq => simp at h
  case h_1 should_delete heq =>
  dsimp only at h
  split at h
  case isFalse hnot => exact absurd h (by simp)
  case isTrue hben =>
  refine ⟨⟨original_format, output_format, hof, hout, hben⟩, ?_⟩
  by_cases hio : ioOk = true
  · rw [if_pos hio] at heq
    cases heq
    exact ⟨hio, h⟩
  · rw [if_neg hio] at heq
    exact absurd heq (by simp)

theorem c7_witness :
    deleteDecision true (sampleImage.with_output_format .Jpg) 5 true (" y\n".data) = true ∧
    true = true ∧
    (sampleImage.with_output_format .Jpg).will_overwrite = false ∧
    (∃ original_format output_format,
      ImageFormat.try_from_filename (sampleImage.with_output_format .Jpg).input_filename =
        .ok original_format ∧
      (sampleImage.with_output_format .Jpg).output_format = some output_format ∧
      (original_format ≠ output_format ∨
        5 < (sampleImage.with_output_format .Jpg).original_file_size)) ∧
    true = true ∧ answeredYes (" y\n".data) = true :=
  ⟨by decide,
   c7_delete_only_if true (sampleImage.with_output_format .Jpg) 5 true (" y\n".data) (by decide)⟩

theorem digitChar_lower {d : Nat} (hd : d < 10) : lowerChar (digitChar d) = digitChar d := by
  interval_cases d <;> decide

theorem digitChar_ne_x {d : Nat} (hd : d < 10) : digitChar d ≠ 'x' := by
  interval_cases d <;> decide

theorem digitChar_ne_plus {d : Nat} (hd : d < 10) : digitChar d ≠ '+' := by
  interval_cases d <;> decide

theorem digitChar_isDigit {d : Nat} (hd : d < 10) : (digitChar d).isDigit = true := by
  interval_cases d <;> decide

theorem digitChar_val {d : Nat} (hd : d < 10) : (digitChar d).toNat - 48 = d := by
  interval_cases d <;> decide

theorem natRepr_mem {n : Nat} {c : Char} (hc : c ∈ natRepr n) :
    ∃ d, d < 10 ∧ c = digitChar d := by
  unfold natRepr at hc
  split at hc
  · simp at hc
    exact ⟨0, by norm_num, by rw [hc]; decide⟩
  · rw [List.mem_map] at hc
    obtain ⟨d, hd, rfl⟩ := hc
    rw [List.mem_reverse] at hd
    exact ⟨d, Nat.digits_lt_base (by norm_num) hd, rfl⟩

theorem natRepr_ne_nil (n : Nat) : natRepr n ≠ [] := by
  unfold natRepr
  split
  · simp
  · rename_i h0
    simp [Nat.digits_ne_nil_iff_ne_zero, h0]

theorem mapFix {f : Char → Char} {l : Str} (h : ∀ c ∈ l, f c = c) : l.map f = l := by
  induction l with
  | nil => rfl
  | cons a t ih =>
    rw [List.map_cons, h a (List.mem_cons_self a t),
      ih (fun c hc => h c (List.mem_cons_of_mem a hc))]

theorem lower_natRepr (n : Nat) : (natRepr n).map lowerChar = natRepr n := by
  refine mapFix ?_
  intro c hc
  obtain ⟨d, hd, rfl⟩ := natRepr_mem hc
  exact digitChar_lower hd

theorem x_not_mem_natRepr (n : Nat) : 'x' ∉ natRepr n := by
  intro hx
  obtain ⟨d, hd, hc⟩ := natRepr_mem hx
  exact digitChar_ne_x hd hc.symm

theorem foldl_ofDigits (ds : List Nat) (a : Nat) :
    ds.reverse.foldl (fun x d => 10 * x + d) a = a * 10 ^ ds.length + Nat.ofDigits 10 ds := by
  induction ds generalizing a with
  | nil => simp
  | cons d tl ih =>
    rw [List.reverse_cons, List.foldl_append, ih]
    simp only [List.foldl_cons, List.foldl_nil, Nat.ofDigits_cons, List.length_cons]
    ring

theorem foldl_digitChars (ds : List Nat) (hds : ∀ d ∈ ds, d < 10) (a : Nat) :
    (ds.map digitChar).foldl (fun x c => 10 * x + (c.toNat - 48)) a =
      ds.foldl (fun x d => 10 * x + d) a := by
  induction ds generalizing a with
  | nil => rfl
  | cons d tl ih =>
    simp only [List.map_cons, List.foldl_cons]
    rw [digitChar_val (hds d (List.mem_cons_self d tl)),
      ih (fun e he => hds e (List.mem_cons_of_mem d he))]

theorem parseU32_natRepr {n : Nat} (hn : n < 4294967296) : parseU32 (natRepr n) = some n := by
  have hne := natRepr_ne_nil n
  have hhead : ¬ (natRepr n).head? = some '+' := by
    cases hrep : natRepr n with
    | nil => exact absurd hrep hne
    | cons c t =>
      have hc : c ∈ natRepr n := by rw [hrep]; exact List.mem_cons_self c t
      obtain ⟨d, hd, rfl⟩ := natRepr_mem hc
      simp [digitChar_ne_plus hd]
  have hdig : (natRepr n).all Char.isDigit = true := by
    rw [List.all_eq_true]
    intro c hc
    obtain ⟨d, hd, rfl⟩ := natRepr_mem hc
    exact digitChar_isDigit hd
  have hv : (natRepr n).foldl (fun a c => 10 * a + (c.toNat - 48)) 0 = n := by
    unfold natRepr
    split
    · rename_i h0
      rw [h0]; decide
    · rw [foldl_digitChars _ (fun d hd =>
        Nat.digits_lt_base (by norm_num) (List.mem_reverse.mp hd)) 0]
      rw [foldl_ofDigits]
      simp [Nat.ofDigits_digits]
  simp only [parseU32, if_neg hhead, if_neg hne, hdig, if_true, hv, if_pos hn]

theorem splitChar_no_sep {c : Char} {s : Str} (h : c ∉ s) : splitChar c s = [s] := by
  induction s with
  | nil => rfl
  | cons a t ih =>
    have ha : ¬ a = c := fun e => h (by rw [← e]; exact List.mem_cons_self a t)
    have ht := ih (fun hc => h (List.mem_cons_of_mem a hc))
    simp only [splitChar, if_neg ha, ht]

theorem splitChar_sandwich {c : Char} {a b : Str} (ha : c ∉ a) (hb : c ∉ b) :
    splitChar c (a ++ c :: b) = [a, b] := by
  induction a with
  | nil => simp [splitChar, splitChar_no_sep hb]
  | cons x xs ih =>
    have hx : ¬ x = c := fun e => ha (by rw [← e]; exact List.mem_cons_self x xs)
    have ih' := ih (fun hc => ha (List.mem_cons_of_mem x hc))
    simp only [List.cons_append, splitChar, if_neg hx, List.append_eq, ih']

theorem stripLead_natRepr_append (w : Nat) (rest : Str) :
    stripLeadChar 'x' (natRepr w ++ rest) = none := by
  cases hrep : natRepr w with
  | nil => exact absurd hrep (natRepr_ne_nil w)
  | cons c t =>
    have hc : c ∈ natRepr w := by rw [hrep]; exact List.mem_cons_self c t
    obtain ⟨d, hd, rfl⟩ := natRepr_mem hc
    simp [stripLeadChar, digitChar_ne_x hd]

theorem natRepr_getLast_digit (n : Nat) :
    ∃ d, d < 10 ∧ (natRepr n).getLast? = some (digitChar d) := by
  have hne := natRepr_ne_nil n
  obtain ⟨d, hd, hc⟩ := natRepr_mem (List.getLast_mem hne)
  exact ⟨d, hd, by rw [List.getLast?_eq_getLast_of_ne_nil hne, hc]⟩

theorem stripTrail_x_natRepr (a : Str) (n : Nat) :
    stripTrailChar 'x' (a ++ 'x' :: natRepr n) = none := by
  obtain ⟨d, hd, hlast⟩ := natRepr_getLast_digit n
  have h1 : (a ++ 'x' :: natRepr n).getLast? = some (digitChar d) := by
    rw [List.getLast?_append_cons]
    have hsplit : ('x' :: natRepr n) = ['x'] ++ natRepr n := rfl
    rw [hsplit, List.getLast?_append_of_ne_nil _ (natRepr_ne_nil n), hlast]
  simp [stripTrailChar, h1, digitChar_ne_x hd]

/-- C9: formatting a Geometry with at least one dimension set and parsing
it back returns exactly the original value; the empty geometry formats as
"empty", which from_str rejects with Error::InvalidGeometry. -/
theorem c9_geometry_roundtrip (g : Geometry)
    (hw : ∀ w, g.width = some w → w < 4294967296)
    (hh : ∀ h, g.height = some h → h < 4294967296)
    (hne : g.is_empty = false) :
    Geometry.from_str g.display = .ok g ∧
    Geometry.empty.display = "empty".data ∧
    Geometry.from_str ("empty".data) = .error (.InvalidGeometry ("empty".data)) := by
  refine ⟨?_, rfl, by decide⟩
  obtain ⟨gw, gh⟩ := g
  have hlx : lowerChar 'x' = 'x' := by decide
  rcases gw with _ | w <;> rcases gh with _ | h
  · simp [Geometry.is_empty] at hne
  · -- width none, height some: "xH"
    have hb := hh h rfl
    show Geometry.from_str ('x' :: natRepr h) = .ok ⟨none, some h⟩
    have hmap : ('x' :: natRepr h).map lowerChar = 'x' :: natRepr h := by
      rw [List.map_cons, hlx, lower_natRepr]
    have hlead : stripLeadChar 'x' ('x' :: natRepr h) = some (natRepr h) := by
      simp [stripLeadChar]
    simp only [Geometry.from_str, hmap, hlead, parseU32_natRepr hb]
  · -- width some, height none: "Wx"
    have ha := hw w rfl
    show Geometry.from_str (natRepr w ++ ['x']) = .ok ⟨some w, none⟩
    have hmap : (natRepr w ++ ['x']).map lowerChar = natRepr w ++ ['x'] := by
      rw [List.map_append, lower_natRepr]
      simp [hlx]
    have htrail : stripTrailChar 'x' (natRepr w ++ ['x']) = some (natRepr w) := by
      simp [stripTrailChar, List.getLast?_concat, List.dropLast_concat]
    simp only [Geometry.from_str, hmap, stripLead_natRepr_append, htrail,
      parseU32_natRepr ha]
  · -- both set: "WxH"
    have ha := hw w rfl
    have hb := hh h rfl
    show Geometry.from_str (natRepr w ++ 'x' :: natRepr h) = .ok ⟨some w, some h⟩
    have hmap : (natRepr w ++ 'x' :: natRepr h).map lowerChar =
        natRepr w ++ 'x' :: natRepr h := by
      rw [List.map_append, lower_natRepr, List.map_cons, hlx, lower_natRepr]
    have hmem : 'x' ∈ natRepr w ++ 'x' :: natRepr h := by
      rw [List.mem_append]
      exact Or.inr (List.mem_cons_self _ _)
    have hparts : splitChar 'x' (natRepr w ++ 'x' :: natRepr h) =
        [natRepr w, natRepr h] :=
      splitChar_sandwich (x_not_mem_natRepr w) (x_not_mem_natRepr h)
    simp only [Geometry.from_str, hmap, stripLead_natRepr_append,
      stripTrail_x_natRepr, if_pos hmem, hparts]
    simp only [List.length_cons, List.length_nil]
    rw [if_neg (by norm_num)]
    simp [List.getD, parseU32_natRepr ha, parseU32_natRepr hb]

theorem c9_witness :
    (∀ w, (Geometry.new 800 600).width = some w → w < 4294967296) ∧
    (∀ h, (Geometry.new 800 600).height = some h → h < 4294967296) ∧
    (Geometry.new 800 600).is_empty = false ∧
    Geometry.from_str (Geometry.new 800 600).display = .ok (Geometry.new 800 600) :=
  ⟨fun w hw => by simp [Geometry.new] at hw; omega,
   fun h hh => by simp [Geometry.new] at hh; omega,
   by decide,
   (c9_geometry_roundtrip (Geometry.new 800 600)
     (fun w hw => by simp [Geometry.new] at hw; omega)
     (fun h hh => by simp [Geometry.new] at hh; omega)
     (by decide)).1⟩

theorem getD_set_ne (l : List Nat) (i j v : Nat) (h : ¬ i = j) :
    (l.set i v).getD j 0 = l.getD j 0 := by
  simp [List.getD_eq_getElem?_getD, List.getElem?_set_ne h]

theorem getD_set_self (l : List Nat) (i v : Nat) (h : i < l.length) :
    (l.set i v).getD i 0 = v := by
  simp [List.getD_eq_getElem?_getD, List.getElem?_set_self, h]

theorem getD_map_lt {α β : Type} (f : α → β) (l : List α) (i : Nat) (h : i < l.length)
    (d : α) (e : β) : (l.map f).getD i e = f (l.getD i d) := by
  rw [List.getD_eq_getElem _ _ (by simpa using h), List.getD_eq_getElem _ _ h,
    List.getElem_map]

theorem writeChannels_append (i : Nat) (chans tail : List Nat) :
    ∀ (ci : Nat) (ps : Planes),
      writeChannels i (chans ++ tail) ci ps =
        (writeChannels i chans ci ps).bind
          (fun ps' => writeChannels i tail (ci + chans.length) ps') := by
  induction chans with
  | nil => intro ci ps; simp [writeChannels]
  | cons c rest ih =>
    intro ci ps
    simp only [List.cons_append, writeChannels]
    cases hstep : (match ci with
      | 0 => (setChecked ps.r i c).map (fun r' => { ps with r := r' })
      | 1 => (setChecked ps.g i c).map (fun g' => { ps with g := g' })
      | 2 => (setChecked ps.b i c).map (fun b' => { ps with b := b' })
      | _ => some ps) with
    | none => simp
    | some ps1 =>
      simp only [Option.some_bind, List.append_eq]
      rw [ih (ci + 1) ps1]
      simp only [List.length_cons]
      have harith : ci + 1 + rest.length = ci + (rest.length + 1) := by omega
      rw [harith]

theorem writeChannels_skip (i : Nat) (chans : List Nat) :
    ∀ (ci : Nat), 3 ≤ ci → ∀ (ps : Planes), writeChannels i chans ci ps = some ps := by
  induction chans with
  | nil => intro ci _ ps; rfl
  | cons c rest ih =>
    intro ci hci ps
    obtain ⟨n, rfl⟩ : ∃ n, ci = n + 3 := ⟨ci - 3, by omega⟩
    simp only [writeChannels]
    rw [Option.some_bind]
    exact ih (n + 3 + 1) (by omega) ps

theorem writeChannels_alpha (i : Nat) (ps : Planes) (c0 c1 c2 c3 : Nat) :
    writeChannels i [c0, c1, c2, c3] 0 ps = writeChannels i [c0, c1, c2] 0 ps := by
  have h4 : [c0, c1, c2, c3] = [c0, c1, c2] ++ [c3] := rfl
  rw [h4, writeChannels_append]
  cases hw : writeChannels i [c0, c1, c2] 0 ps with
  | none => rfl
  | some ps' => simp [writeChannels_skip i [c3] 3 (by omega) ps']

theorem writeChannels3_eq (i : Nat) (ps : Planes) (c0 c1 c2 : Nat)
    (h1 : i < ps.r.length) (h2 : i < ps.g.length) (h3 : i < ps.b.length) :
    writeChannels i [c0, c1, c2] 0 ps =
      some ⟨ps.r.set i c0, ps.g.set i c1, ps.b.set i c2⟩ := by
  simp [writeChannels, setChecked, h1, h2, h3]

theorem assemble3_spec (px : List (Nat × Nat × Nat)) :
    ∀ (idx : Nat) (ps : Planes),
      idx + px.length ≤ ps.r.length →
      idx + px.length ≤ ps.g.length →
      idx + px.length ≤ ps.b.length →
      ∃ ps', assemblePlanes (px.map pixelChans3) idx ps = some ps' ∧
        ps'.r.length = ps.r.length ∧ ps'.g.length = ps.g.length ∧
        ps'.b.length = ps.b.length ∧
        (∀ j, j < idx →
          ps'.r.getD j 0 = ps.r.getD j 0 ∧
          ps'.g.getD j 0 = ps.g.getD j 0 ∧
          ps'.b.getD j 0 = ps.b.getD j 0) ∧
        (∀ i, i < px.length →
          ps'.r.getD (idx + i) 0 = (px.getD i (0, 0, 0)).1 ∧
          ps'.g.getD (idx + i) 0 = (px.getD i (0, 0, 0)).2.1 ∧
          ps'.b.getD (idx + i) 0 = (px.getD i (0, 0, 0)).2.2) := by
  induction px with
  | nil =>
    intro idx ps _ _ _
    exact ⟨ps, rfl, rfl, rfl, rfl, fun j _ => ⟨rfl, rfl, rfl⟩,
      fun i hi => absurd hi (by simp)⟩
  | cons p rest ih =>
    intro idx ps hr hg hb
    rw [List.length_cons] at hr hg hb
    have h1 : idx < ps.r.length := by omega
    have h2 : idx < ps.g.length := by omega
    have h3 : idx < ps.b.length := by omega
    have hchans : pixelChans3 p = [p.1, p.2.1, p.2.2] := rfl
    set ps1 : Planes := ⟨ps.r.set idx p.1, ps.g.set idx p.2.1, ps.b.set idx p.2.2⟩ with hps1
    obtain ⟨ps', hasm, hlr, hlg, hlb, hframe, hvals⟩ :=
      ih (idx + 1) ps1
        (by simp [hps1, List.length_set]; omega)
        (by simp [hps1, List.length_set]; omega)
        (by simp [hps1, List.length_set]; omega)
    refine ⟨ps', ?_, ?_, ?_, ?_, ?_, ?_⟩
    · simp only [List.map_cons, assemblePlanes, hchans,
        writeChannels3_eq idx ps p.1 p.2.1 p.2.2 h1 h2 h3, Option.some_bind]
      exact hasm
    · rw [hlr]; simp [hps1, List.length_set]
    · rw [hlg]; simp [hps1, List.length_set]
    · rw [hlb]; simp [hps1, List.length_set]
    · intro j hj
      obtain ⟨f1, f2, f3⟩ := hframe j (by omega)
      refine ⟨?_, ?_, ?_⟩
      · rw [f1]; exact getD_set_ne _ _ _ _ (by omega)
      · rw [f2]; exact getD_set_ne _ _ _ _ (by omega)
      · rw [f3]; exact getD_set_ne _ _ _ _ (by omega)
    · intro i hi
      cases i with
      | zero =>
        obtain ⟨f1, f2, f3⟩ := hframe idx (by omega)
        rw [Nat.add_zero]
        refine ⟨?_, ?_, ?_⟩
        · rw [f1, hps1, List.getD_cons_zero]
          exact getD_set_self ps.r idx p.1 h1
        · rw [f2, hps1, List.getD_cons_zero]
          exact getD_set_self ps.g idx p.2.1 h2
        · rw [f3, hps1, List.getD_cons_zero]
          exact getD_set_self ps.b idx p.2.2 h3
      | succ i =>
        obtain ⟨v1, v2, v3⟩ := hvals i (by rw [List.length_cons] at hi; omega)
        have harith : idx + (i + 1) = idx + 1 + i := by omega
        rw [harith, List.getD_cons_succ]
        exact ⟨v1, v2, v3⟩

theorem assemble4_eq_dropAlpha (px : List (Nat × Nat × Nat × Nat)) :
    ∀ (idx : Nat) (ps : Planes),
      assemblePlanes (px.map pixelChans4) idx ps =
        assemblePlanes ((px.map dropAlpha).map pixelChans3) idx ps := by
  induction px with
  | nil => intro idx ps; rfl
  | cons p rest ih =>
    intro idx ps
    simp only [List.map_cons, assemblePlanes]
    have h4 : pixelChans4 p = [p.1, p.2.1, p.2.2.1, p.2.2.2] := rfl
    have h3 : pixelChans3 (dropAlpha p) = [p.1, p.2.1, p.2.2.1] := rfl
    rw [h4, h3, writeChannels_alpha]
    cases hw : writeChannels idx [p.1, p.2.1, p.2.2.1] 0 ps with
    | none => rfl
    | some ps1 => simp [ih (idx + 1) ps1]

/-- C4 fails on the code: with a target geometry smaller than the decoded
image, output_heif allocates the planes from final_geometry() but walks
every pixel of the stored image, so the indexed write runs past the end of
the plane buffers.  On the concrete 2x2 RGB image with target geometry 1x1
the assembly loop hits an out-of-bounds index (modelled as `none`, the
panic), exactly the situation the repository's own tests test_with_png and
test_output_format drive auto_format into. -/
theorem c4_heif_write_out_of_bounds :
    (sampleImage.with_target_geometry (Geometry.new 1 1)).output_heif = none ∧
    (sampleImage.with_target_geometry (Geometry.new 1 1)).final_geometry = Geometry.new 1 1 ∧
    sampleImage.image.width = 2 ∧ sampleImage.image.height = 2 ∧
    sampleImage.image.pixels.count = 4 := by
  refine ⟨?_, by decide, by decide, by decide, by decide⟩
  decide

/-- C5: on an 8-bit RGB or RGBA image (whenever the pixel count fits the
allocated planes, i.e. the assembly completes), output_heif puts the red
byte of pixel i at index i of the r plane, the green byte at index i of
the g plane, the blue byte at index i of the b plane; the alpha channel is
discarded (the RGBA walk writes exactly what the RGB walk over the
alpha-stripped pixels writes); any other pixel representation yields
Error::ImageEncodingError. -/
theorem c5_heif_plane_assembly (img : Image) (w h : Nat)
    (hw : img.final_geometry.width = some w) (hh : img.final_geometry.height = some h) :
    (∀ px, img.image.pixels = .rgb8 px → px.length ≤ w * h →
      ∃ ps, assemblePlanes (px.map pixelChans3) 0 (initPlanes w h) = some ps ∧
        img.output_heif =
          some ((img.heifEncode ps.r ps.g ps.b).mapError Error.ImageEncodingError) ∧
        ∀ i, i < px.length →
          ps.r.getD i 0 = (px.getD i (0, 0, 0)).1 ∧
          ps.g.getD i 0 = (px.getD i (0, 0, 0)).2.1 ∧
          ps.b.getD i 0 = (px.getD i (0, 0, 0)).2.2) ∧
    (∀ px, img.image.pixels = .rgba8 px → px.length ≤ w * h →
      assemblePlanes (px.map pixelChans4) 0 (initPlanes w h) =
        assemblePlanes ((px.map dropAlpha).map pixelChans3) 0 (initPlanes w h) ∧
      ∃ ps, assemblePlanes (px.map pixelChans4) 0 (initPlanes w h) = some ps ∧
        img.output_heif =
          some ((img.heifEncode ps.r ps.g ps.b).mapError Error.ImageEncodingError) ∧
        ∀ i, i < px.length →
          ps.r.getD i 0 = (px.getD i (0, 0, 0, 0)).1 ∧
          ps.g.getD i 0 = (px.getD i (0, 0, 0, 0)).2.1 ∧
          ps.b.getD i 0 = (px.getD i (0, 0, 0, 0)).2.2.1) ∧
    (img.image.pixels = .other →
      img.output_heif = some (.error (.ImageEncodingError
        ("Failed to get RGB8-ish data from image for HEIF encoding".data)))) := by
  have hlen : ∀ s : List Nat, s = List.replicate (w * h) 0 → s.length = w * h := by
    intro s hs; rw [hs, List.length_replicate]
  refine ⟨?_, ?_, ?_⟩
  · intro px hpx hbound
    obtain ⟨ps, hasm, _, _, _, _, hvals⟩ :=
      assemble3_spec px 0 (initPlanes w h)
        (by simp [initPlanes, List.length_replicate]; omega)
        (by simp [initPlanes, List.length_replicate]; omega)
        (by simp [initPlanes, List.length_replicate]; omega)
    refine ⟨ps, hasm, ?_, fun i hi => by simpa using hvals i hi⟩
    simp only [Image.output_heif, hw, hh, hpx, hasm]
  · intro px hpx hbound
    have heq := assemble4_eq_dropAlpha px 0 (initPlanes w h)
    obtain ⟨ps, hasm, _, _, _, _, hvals⟩ :=
      assemble3_spec (px.map dropAlpha) 0 (initPlanes w h)
        (by simp [initPlanes, List.length_replicate]; omega)
        (by simp [initPlanes, List.length_replicate]; omega)
        (by simp [initPlanes, List.length_replicate]; omega)
    refine ⟨heq, ps, by rw [heq]; exact hasm, ?_, fun i hi => ?_⟩
    · simp only [Image.output_heif, hw, hh, hpx, heq, hasm]
    · obtain ⟨v1, v2, v3⟩ := hvals i (by simpa using hi)
      rw [getD_map_lt dropAlpha px i hi (0, 0, 0, 0) (0, 0, 0)] at v1 v2 v3
      exact ⟨by simpa using v1, by simpa using v2, by simpa using v3⟩
  · intro hpx
    simp only [Image.output_heif, hw, hh, hpx]

theorem c5_witness :
    sampleImage.final_geometry.width = some 2 ∧
    sampleImage.final_geometry.height = some 2 ∧
    sampleImage.image.pixels = .rgb8 [(1, 2, 3), (4, 5, 6), (7, 8, 9), (10, 11, 12)] ∧
    ([(1, 2, 3), (4, 5, 6), (7, 8, 9), (10, 11, 12)] : List (Nat × Nat × Nat)).length ≤ 2 * 2 ∧
    (∃ ps, assemblePlanes ([(1, 2, 3), (4, 5, 6), (7, 8, 9), (10, 11, 12)].map pixelChans3) 0
        (initPlanes 2 2) = some ps ∧
      sampleImage.output_heif =
        some ((sampleImage.heifEncode ps.r ps.g ps.b).mapError Error.ImageEncodingError) ∧
      ∀ i, i < ([(1, 2, 3), (4, 5, 6), (7, 8, 9), (10, 11, 12)] : List (Nat × Nat × Nat)).length →
        ps.r.getD i 0 = ([(1, 2, 3), (4, 5, 6), (7, 8, 9), (10, 11, 12)].getD i (0, 0, 0)).1 ∧
        ps.g.getD i 0 = ([(1, 2, 3), (4, 5, 6), (7, 8, 9), (10, 11, 12)].getD i (0, 0, 0)).2.1 ∧
        ps.b.getD i 0 = ([(1, 2, 3), (4, 5, 6), (7, 8, 9), (10, 11, 12)].getD i (0, 0, 0)).2.2) :=
  ⟨rfl, rfl, rfl, by decide,
   (c5_heif_plane_assembly sampleImage 2 2 rfl rfl).1
     [(1, 2, 3), (4, 5, 6), (7, 8, 9), (10, 11, 12)] rfl (by decide)⟩

theorem mem_all (f : ImageFormat) : f ∈ ImageFormat.all := by
  cases f <;> decide

theorem collectResults_map_some (img : Image) (fmts : List ImageFormat) :
    ∀ (res : List (ImageFormat × Except Error (List Nat))),
      collectResults (fmts.map (fun fmt => (fmt, img.output_as_format fmt))) = some res →
      (∀ p ∈ res, img.output_as_format p.1 = some p.2) ∧
      (∀ f ∈ fmts, ∃ r, img.output_as_format f = some r ∧ (f, r) ∈ res) := by
  induction fmts with
  | nil =>
    intro res h
    simp only [List.map_nil, collectResults, Option.some_inj] at h
    subst h
    exact ⟨fun p hp => absurd hp (by simp), fun f hf => absurd hf (by simp)⟩
  | cons f fmts ih =>
    intro res h
    rw [List.map_cons] at h
    cases henc : img.output_as_format f with
    | none => rw [henc] at h; exact absurd h (by simp [collectResults])
    | some r =>
      rw [henc] at h
      simp only [collectResults] at h
      cases hc : collectResults (fmts.map (fun fmt => (fmt, img.output_as_format fmt))) with
      | none => rw [hc] at h; simp at h
      | some res' =>
        rw [hc] at h
        simp only [Option.map_some', Option.some_inj] at h
        subst h
        obtain ⟨ih1, ih2⟩ := ih res' hc
        constructor
        · intro p hp
          rcases List.mem_cons.mp hp with rfl | hp'
          · exact henc
          · exact ih1 p hp'
        · intro g hg
          rcases List.mem_cons.mp hg with rfl | hg'
          · exact ⟨r, henc, List.mem_cons_self _ _⟩
          · obtain ⟨r', hr', hmem⟩ := ih2 g hg'
            exact ⟨r', hr', List.mem_cons_of_mem _ hmem⟩

theorem foldPick_mem {α : Type} (k : α → Nat) (xs : List α) :
    ∀ x, xs.foldl (fun acc y => if k y < k acc then y else acc) x = x ∨
      xs.foldl (fun acc y => if k y < k acc then y else acc) x ∈ xs := by
  induction xs with
  | nil => intro x; exact Or.inl rfl
  | cons y ys ih =>
    intro x
    rw [List.foldl_cons]
    rcases ih (if k y < k x then y else x) with heq | hmem
    · rw [heq]
      by_cases hxy : k y < k x
      · rw [if_pos hxy]; exact Or.inr (List.mem_cons_self _ _)
      · rw [if_neg hxy]; exact Or.inl rfl
    · exact Or.inr (List.mem_cons_of_mem _ hmem)

theorem foldPick_le {α : Type} (k : α → Nat) (xs : List α) :
    ∀ x, k (xs.foldl (fun acc y => if k y < k acc then y else acc) x) ≤ k x ∧
      ∀ y ∈ xs, k (xs.foldl (fun acc y => if k y < k acc then y else acc) x) ≤ k y := by
  induction xs with
  | nil => intro x; exact ⟨Nat.le_refl _, fun y hy => absurd hy (by simp)⟩
  | cons y ys ih =>
    intro x
    rw [List.foldl_cons]
    obtain ⟨h1, h2⟩ := ih (if k y < k x then y else x)
    have hpx : k (if k y < k x then y else x) ≤ k x := by
      by_cases hxy : k y < k x
      · simpa [hxy] using Nat.le_of_lt hxy
      · simp [hxy]
    have hpy : k (if k y < k x then y else x) ≤ k y := by
      by_cases hxy : k y < k x
      · simp [hxy]
      · simpa [hxy] using Nat.le_of_not_lt hxy
    refine ⟨Nat.le_trans h1 hpx, fun z hz => ?_⟩
    rcases List.mem_cons.mp hz with rfl | hz'
    · exact Nat.le_trans h1 hpy
    · exact h2 z hz'

theorem minByKey_spec {α : Type} {k : α → Nat} {l : List α} {a : α}
    (h : minByKey k l = some a) : a ∈ l ∧ ∀ b ∈ l, k a ≤ k b := by
  cases l with
  | nil => simp [minByKey] at h
  | cons x xs =>
    simp only [minByKey, Option.some_inj] at h
    subst h
    obtain ⟨h1, h2⟩ := foldPick_le k xs x
    rcases foldPick_mem k xs x with heq | hmem
    · refine ⟨by rw [heq]; exact List.mem_cons_self _ _, fun b hb => ?_⟩
      rcases List.mem_cons.mp hb with rfl | hb'
      · exact h1
      · exact h2 b hb'
    · refine ⟨List.mem_cons_of_mem _ hmem, fun b hb => ?_⟩
      rcases List.mem_cons.mp hb with rfl | hb'
      · exact h1
      · exact h2 b hb'

theorem minByKey_none_iff {α : Type} (k : α → Nat) (l : List α) :
    minByKey k l = none ↔ l = [] := by
  cases l <;> simp [minByKey]

theorem mem_keepOk {res : List (ImageFormat × Except Error (List Nat))}
    {g : ImageFormat} {e : List Nat} :
    (g, e) ∈ keepOk res ↔ (g, .ok e) ∈ res := by
  unfold keepOk
  rw [List.mem_filterMap]
  constructor
  · rintro ⟨⟨p1, p2⟩, hp, hm⟩
    cases p2 with
    | ok d => simp only [Option.some_inj, Prod.mk.injEq] at hm; rw [← hm.1, ← hm.2]; exact hp
    | error _ => simp at hm
  · intro hp
    exact ⟨(g, .ok e), hp, rfl⟩

theorem keepOk_eq_nil_iff {res : List (ImageFormat × Except Error (List Nat))} :
    keepOk res = [] ↔ ∀ p ∈ res, ∃ m, p.2 = .error m := by
  unfold keepOk
  rw [List.filterMap_eq_nil_iff]
  constructor
  · intro h p hp
    have := h p hp
    cases hp2 : p.2 with
    | ok d => rw [hp2] at this; simp at this
    | error m => exact ⟨m, rfl⟩
  · intro h p hp
    obtain ⟨m, hm⟩ := h p hp
    rw [hm]

theorem auto_format_chosen {img : Image} {f : ImageFormat} {d : List Nat}
    (h : img.auto_format = some (.ok (f, d))) :
    img.output_as_format f = some (.ok d) ∧
    ∀ g e, img.output_as_format g = some (.ok e) → d.length ≤ e.length := by
  unfold Image.auto_format at h
  cases hc : collectResults
      (ImageFormat.all.map (fun fmt => (fmt, img.output_as_format fmt))) with
  | none => rw [hc] at h; exact absurd h (by simp)
  | some res =>
    rw [hc] at h
    dsimp only at h
    obtain ⟨hres_all, hres_cover⟩ := collectResults_map_some img ImageFormat.all res hc
    cases hmin : minByKey (fun r => r.2.length) (keepOk res) with
    | none => rw [hmin] at h; exact absurd h (by simp)
    | some pair =>
      obtain ⟨pf, pd⟩ := pair
      rw [hmin] at h
      dsimp only at h
      simp only [Option.some_inj, Except.ok.injEq, Prod.mk.injEq] at h
      obtain ⟨rfl, rfl⟩ := h
      obtain ⟨hmem, hle⟩ := minByKey_spec hmin
      have hfmem : (pf, (Except.ok pd : Except Error (List Nat))) ∈ res := mem_keepOk.mp hmem
      refine ⟨hres_all _ hfmem, fun g e hg => ?_⟩
      obtain ⟨r2, hr2, hgr⟩ := hres_cover g (mem_all g)
      have hre : r2 = .ok e := by
        rw [hr2] at hg
        exact Option.some_inj.mp hg
      subst hre
      exact hle (g, e) (mem_keepOk.mpr hgr)

theorem auto_format_error_iff {img : Image} {res : Except Error (ImageFormat × List Nat)}
    (h : img.auto_format = some res) :
    (∃ m, res = .error (.ImageEncodingError m)) ↔
      ∀ g : ImageFormat, ∃ err, img.output_as_format g = some (.error err) := by
  unfold Image.auto_format at h
  cases hc : collectResults
      (ImageFormat.all.map (fun fmt => (fmt, img.output_as_format fmt))) with
  | none => rw [hc] at h; exact absurd h (by simp)
  | some results =>
    rw [hc] at h
    dsimp only at h
    obtain ⟨hres_all, hres_cover⟩ := collectResults_map_some img ImageFormat.all results hc
    cases hmin : minByKey (fun r => r.2.length) (keepOk results) with
    | some pair =>
      obtain ⟨pf, pd⟩ := pair
      rw [hmin] at h
      dsimp only at h
      have hres : res = .ok (pf, pd) := (Option.some_inj.mp h).symm
      subst hres
      constructor
      · rintro ⟨m, hm⟩
        exact absurd hm (by simp)
      · intro hall
        obtain ⟨hmem, hle2⟩ := minByKey_spec hmin
        have hfmem : (pf, (Except.ok pd : Except Error (List Nat))) ∈ results := mem_keepOk.mp hmem
        have hok := hres_all _ hfmem
        obtain ⟨err, herr⟩ := hall pf
        rw [hok] at herr
        exact absurd (Option.some_inj.mp herr) (by simp)
    | none =>
      rw [hmin] at h
      dsimp only at h
      have hres : res = .error (.ImageEncodingError
          ("Failed to determine optimal image format".data)) := (Option.some_inj.mp h).symm
      subst hres
      constructor
      · intro _ g
        have hnil : keepOk results = [] := (minByKey_none_iff _ _).mp hmin
        have hall := keepOk_eq_nil_iff.mp hnil
        obtain ⟨r2, hr2, hgr⟩ := hres_cover g (mem_all g)
        obtain ⟨m, hm⟩ := hall _ hgr
        exact ⟨m, by rw [hr2]; exact congrArg some hm⟩
      · intro _
        exact ⟨"Failed to determine optimal image format".data, rfl⟩

/-- C2: whenever auto_format completes (no encoder panic), it returns
Ok((f, bytes)) with bytes the successful encoding in format f of minimal
length among all successful encodings over the six supported formats, and
it returns Error::ImageEncodingError exactly when every format's encoding
fails. -/
theorem c2_auto_format_minimal (img : Image) (res : Except Error (ImageFormat × List Nat))
    (h : img.auto_format = some res) :
    (∀ f d, res = .ok (f, d) →
      img.output_as_format f = some (.ok d) ∧
      ∀ g e, img.output_as_format g = some (.ok e) → d.length ≤ e.length) ∧
    ((∃ m, res = .error (.ImageEncodingError m)) ↔
      ∀ g : ImageFormat, ∃ err, img.output_as_format g = some (.error err)) :=
  ⟨fun _ _ hres => auto_format_chosen (hres ▸ h), auto_format_error_iff h⟩

theorem c2_witness :
    sampleImage.auto_format = some (.ok (ImageFormat.Jpg, [9, 9, 9])) ∧
    ((∀ f d, (Except.ok (ImageFormat.Jpg, [9, 9, 9]) :
        Except Error (ImageFormat × List Nat)) = .ok (f, d) →
      sampleImage.output_as_format f = some (.ok d) ∧
      ∀ g e, sampleImage.output_as_format g = some (.ok e) → d.length ≤ e.length) ∧
    ((∃ m, (Except.ok (ImageFormat.Jpg, [9, 9, 9]) :
        Except Error (ImageFormat × List Nat)) = .error (.ImageEncodingError m)) ↔
      ∀ g : ImageFormat, ∃ err, sampleImage.output_as_format g = some (.error err))) :=
  ⟨by decide, c2_auto_format_minimal sampleImage (.ok (ImageFormat.Jpg, [9, 9, 9])) (by decide)⟩

/-- C3 fails on the code: main writes auto_format's choice unconditionally,
never comparing it with the original file size.  On the concrete image
whose smallest successful encoding is 3 bytes while the original file was
1 byte, the auto-mode run succeeds and writes 3 bytes, which is not
smaller than the original. -/
theorem c3_counterexample :
    mainAutoBytes growImage = some (.ok [9, 9, 9]) ∧
    ¬ (([9, 9, 9] : List Nat).length < growImage.original_file_size) :=
  ⟨by decide, by decide⟩

/-- C3 amended: in a succeeding auto-mode invocation the bytes written to
disk are exactly auto_format's choice, the smallest successful encoding;
they need not be smaller than the original input file (main performs no
such comparison and the delete prompt even reports a size increase). -/
theorem c3_auto_bytes_minimal (img : Image) (d : List Nat)
    (h : mainAutoBytes img = some (.ok d)) :
    ∃ f, img.auto_format = some (.ok (f, d)) ∧
      img.output_as_format f = some (.ok d) ∧
      ∀ g e, img.output_as_format g = some (.ok e) → d.length ≤ e.length := by
  unfold mainAutoBytes at h
  cases ha : img.auto_format with
  | none => rw [ha] at h; exact absurd h (by simp)
  | some res =>
    rw [ha] at h
    cases res with
    | ok p =>
      obtain ⟨f, d2⟩ := p
      dsimp only at h
      have hd : d2 = d := Except.ok.inj (Option.some_inj.mp h)
      subst hd
      obtain ⟨h1, h2⟩ := auto_format_chosen ha
      exact ⟨f, rfl, h1, h2⟩
    | error e =>
      dsimp only at h
      exact absurd (Option.some_inj.mp h) (by simp)

theorem c3_witness :
    mainAutoBytes sampleImage = some (.ok [9, 9, 9]) ∧
    (∃ f, sampleImage.auto_format = some (.ok (f, [9, 9, 9])) ∧
      sampleImage.output_as_format f = some (.ok [9, 9, 9]) ∧
      ∀ g e, sampleImage.output_as_format g = some (.ok e) → ([9, 9, 9] : List Nat).length ≤ e.length) :=
  ⟨by decide, c3_auto_bytes_minimal sampleImage [9, 9, 9] (by decide)⟩

theorem foldlMin_le_base {α : Type} (k : α → Nat) (ys : List α) :
    ∀ b, ys.foldl (fun m y => Nat.min m (k y)) b ≤ b := by
  induction ys with
  | nil => intro b; exact Nat.le_refl b
  | cons y t ih =>
    intro b
    simp only [List.foldl_cons]
    exact Nat.le_trans (ih (Nat.min b (k y))) (Nat.min_le_left b (k y))

theorem minByKey_aux {α : Type} (k : α → Nat) (xs : List α) :
    ∀ x, some (xs.foldl (fun acc y => if k y < k acc then y else acc) x) =
      firstMinBy k (x :: xs) := by
  induction xs with
  | nil =>
    intro x
    simp [firstMinBy, minKeyVal, List.find?]
  | cons y ys ih =>
    intro x
    rw [List.foldl_cons, ih (if k y < k x then y else x)]
    by_cases hxy : k y < k x
    · rw [if_pos hxy]
      unfold firstMinBy minKeyVal
      dsimp only
      have hM : (y :: ys).foldl (fun m z => Nat.min m (k z)) (k x) =
          ys.foldl (fun m z => Nat.min m (k z)) (k y) := by
        simp only [List.foldl_cons]
        have hmin : Nat.min (k x) (k y) = k y :=
          Nat.min_eq_right (Nat.le_of_lt hxy)
        rw [hmin]
      rw [hM]
      have hMle : ys.foldl (fun m z => Nat.min m (k z)) (k y) ≤ k y :=
        foldlMin_le_base k ys (k y)
      have hxne : (k x == ys.foldl (fun m z => Nat.min m (k z)) (k y)) = false := by
        have : ys.foldl (fun m z => Nat.min m (k z)) (k y) < k x :=
          Nat.lt_of_le_of_lt hMle hxy
        simp [Nat.ne_of_gt this]
      simp only [List.find?, hxne]
    · rw [if_neg hxy]
      have hxle : k x ≤ k y := Nat.le_of_not_lt hxy
      unfold firstMinBy minKeyVal
      dsimp only
      have hM : (y :: ys).foldl (fun m z => Nat.min m (k z)) (k x) =
          ys.foldl (fun m z => Nat.min m (k z)) (k x) := by
        simp only [List.foldl_cons]
        have hmin : Nat.min (k x) (k y) = k x := Nat.min_eq_left hxle
        rw [hmin]
      rw [hM]
      have hMle : ys.foldl (fun m z => Nat.min m (k z)) (k x) ≤ k x :=
        foldlMin_le_base k ys (k x)
      by_cases hx : k x = ys.foldl (fun m z => Nat.min m (k z)) (k x)
      · have hxt : (k x == ys.foldl (fun m z => Nat.min m (k z)) (k x)) = true :=
          beq_iff_eq.mpr hx
        simp only [List.find?, hxt]
      · have hxb : (k x == ys.foldl (fun m z => Nat.min m (k z)) (k x)) = false := by
          simp [hx]
        have hyb : (k y == ys.foldl (fun m z => Nat.min m (k z)) (k x)) = false := by
          have hlt : ys.foldl (fun m z => Nat.min m (k z)) (k x) < k x :=
            Nat.lt_of_le_of_ne hMle (fun e => hx e.symm)
          have : ys.foldl (fun m z => Nat.min m (k z)) (k x) < k y :=
            Nat.lt_of_lt_of_le hlt hxle
          simp [Nat.ne_of_gt this]
        simp only [List.find?, hxb, hyb]

theorem minByKey_eq_firstMinBy {α : Type} (k : α → Nat) (l : List α) :
    minByKey k l = firstMinBy k l := by
  cases l with
  | nil => rfl
  | cons x xs => exact minByKey_aux k xs x

theorem seqEncode_eq_collect (img : Image) (fmts : List ImageFormat) :
    img.seqEncode fmts =
      collectResults (fmts.map (fun fmt => (fmt, img.output_as_format fmt))) := by
  induction fmts with
  | nil => rfl
  | cons f rest ih =>
    rw [List.map_cons]
    cases henc : img.output_as_format f with
    | none => simp only [Image.seqEncode, henc, collectResults]
    | some r => simp only [Image.seqEncode, henc, collectResults, ih]

/-- C6: the rayon-parallel auto_format equals the sequential procedure
that encodes each format of ImageFormat::all() in enumeration order
[Jpg, Png, Webp, Avif, Heic, Heif], discards the failed encodings, and
returns the first pair of minimal byte length; the parallel collect
preserves iteration order and shares no mutable state, so the result is
the same deterministic function of the image. -/
theorem c6_auto_format_sequential (img : Image) :
    img.auto_format = img.auto_format_spec := by
  unfold Image.auto_format Image.auto_format_spec
  rw [seqEncode_eq_collect]
  cases hc : collectResults
      (ImageFormat.all.map (fun fmt => (fmt, img.output_as_format fmt))) with
  | none => rfl
  | some results =>
    dsimp only
    rw [minByKey_eq_firstMinBy]

theorem applyGeometry_image_unchanged
    (rz : DynamicImage → Nat → Nat → DynamicImage) (garg : Option Str)
    (img img' : Image) (h : applyGeometry rz garg img = some img') :
    img'.image = img.image := by
  unfold applyGeometry at h
  cases garg with
  | none =>
    have : img = img' := Option.some_inj.mp h
    rw [← this]
  | some gs =>
    dsimp only at h
    cases hg : Geometry.from_str gs with
    | error e => rw [hg] at h; exact absurd h (by simp)
    | ok tg =>
      rw [hg] at h
      dsimp only at h
      split at h
      · have : img = img' := Option.some_inj.mp h
        rw [← this]
      · split at h
        · have : img.with_target_geometry tg = img' := Option.some_inj.mp h
          rw [← this]
          rfl
        · exact absurd h (by simp)

/-- C1 fails on the code: main.rs:126-133 calls resize() but only logs the
returned resized image and drops it, and Image::resize never assigns
self.image, so the pixel data later encoded and written is still the
original decoded image, not the final_geometry()-sized one.  Concretely,
parsing the non-empty geometry "1x1" against the 2x2 sample image leaves
the stored image at 2x2 while final_geometry() is 1x1, and the encoded
output is bit-for-bit the encoding of the unresized image. -/
theorem c1_resize_result_discarded :
    (applyGeometry sampleResize (some ("1x1".data)) sampleImage).map
      (fun i => i.image) = some sampleImage.image ∧
    (applyGeometry sampleResize (some ("1x1".data)) sampleImage).map
      (fun i => i.final_geometry) = some (Geometry.new 1 1) ∧
    sampleImage.image.width = 2 ∧ sampleImage.image.height = 2 ∧
    (applyGeometry sampleResize (some ("1x1".data)) sampleImage).map
      (fun i => i.output_as_format ImageFormat.Jpg) =
      some (sampleImage.output_as_format ImageFormat.Jpg) := by
  refine ⟨?_, ?_, ?_, ?_, ?_⟩ <;> decide
